import Mathlib

/-!
Verification of the decode and post-processing pipeline of a YOLOv4 TensorFlow/TFLite
implementation.

The embedding follows the two source files:

* `py_src/yolov4/model/yolov4.py` — the `Decode` head (`Decode.build` constructs the
  `xy_grid` tensor from `tf.meshgrid`/`tf.stack`/`tf.tile`; `Decode.call` splits the raw
  tensor, applies sigmoid/exp transforms, the grid offset and the cell width, and flattens
  into `grid * grid * 3` candidate rows), and the concatenation of the three scales in
  `YOLOv4.call` (cell widths 8, 16, 32).
* `py_src/yolov4/tflite/__init__.py` — the load-time input-shape check, the float32
  normalization branch of `predict`, and the candidate aggregation of `_predict`.

The DIoU non-maximum suppression invoked by `predict` lives in a base class outside these
two files; it is modelled from the specification text (see `yolo_diou_nms` below).

Tensors are embedded as total functions from natural-number indices to values, and the
flattened candidate tensors as lists of rows.
-/

/-- Logistic sigmoid, the mathematical function computed by the
`tf.keras.activations.sigmoid` calls in `Decode.call`. -/
noncomputable def sigmoid (t : ℝ) : ℝ := 1 / (1 + Real.exp (-t))

/-- Embedding of `tf.meshgrid(a, b)` (default cartesian indexing) for 1-D inputs: the
result is the pair `(X, Y)` of matrices with `X[i][j] = a[j]` and `Y[i][j] = b[i]`. -/
def meshgrid (a b : List ℕ) : List (List ℕ) × List (List ℕ) :=
  (b.map fun _ => a, b.map fun y => a.map fun _ => y)

/-- Embedding of stacking `[X, Y]` along a new last axis: pair up entries elementwise. -/
def stackLast (P : List (List ℕ) × List (List ℕ)) : List (List (ℕ × ℕ)) :=
  List.zipWith (List.zipWith Prod.mk) P.1 P.2

/-- Embedding of tiling the grid over the anchor dimension: each `(x, y)` pair of the
stacked meshgrid is replicated for the 3 anchors of the scale. -/
def tileAnchors (grid : List (List (ℕ × ℕ))) : List (List (List (ℕ × ℕ))) :=
  grid.map fun row => row.map fun p => List.replicate 3 p

/-- The `xy_grid` tensor constructed by `Decode.build` for grid size `g`: meshgrid of two
`range g` vectors, stacked along the last axis, tiled over the 3 anchors. -/
def xy_grid (g : ℕ) : List (List (List (ℕ × ℕ))) :=
  tileAnchors (stackLast (meshgrid (List.range g) (List.range g)))

/-- Entry of `xy_grid` at row `i`, column `j`, anchor `k`. -/
def gridAt (g i j k : ℕ) : ℕ × ℕ := (((xy_grid g).getD i []).getD j []).getD k (0, 0)

/-- Embedding of the body of `Decode.call` for one (row, column, anchor) cell: the raw
vector `v` is split into `dxdy`, `wh`, `score`, `classes`; sigmoid is applied to `dxdy`;
the decoded center is `((sigmoid(d) - 0.5) * xyscale + 0.5 + grid) * cell_width`; the
decoded size is `anchor * exp(raw)`; sigmoid is applied to the score and the class logits
only when not training; everything is concatenated back into one row of length
`5 + numClasses`. -/
noncomputable def decodeRow (numClasses : ℕ) (anchor : ℝ × ℝ) (cellWidth xyscale : ℝ)
    (grid : ℕ × ℕ) (training : Bool) (v : ℕ → ℝ) : List ℝ :=
  [((sigmoid (v 0) - 1 / 2) * xyscale + 1 / 2 + (grid.1 : ℝ)) * cellWidth,
   ((sigmoid (v 1) - 1 / 2) * xyscale + 1 / 2 + (grid.2 : ℝ)) * cellWidth,
   anchor.1 * Real.exp (v 2),
   anchor.2 * Real.exp (v 3),
   if training then v 4 else sigmoid (v 4)] ++
  ((List.range numClasses).map fun c => if training then v (5 + c) else sigmoid (v (5 + c)))

/-- Embedding of `Decode.call` on a whole `(g, g, 3, 5 + numClasses)` raw tensor `x`,
flattened row-major into `g * g * 3` candidate rows exactly as the final reshape does:
flat index `n` holds the cell at row `n / (g * 3)`, column `n / 3 % g`, anchor `n % 3`. -/
noncomputable def decodeCall (g numClasses : ℕ) (anchors : ℕ → ℝ × ℝ)
    (cellWidth xyscale : ℝ) (training : Bool) (x : ℕ → ℕ → ℕ → ℕ → ℝ) : List (List ℝ) :=
  (List.range (g * g * 3)).map fun n =>
    decodeRow numClasses (anchors (n % 3)) cellWidth xyscale
      (gridAt g (n / (g * 3)) (n / 3 % g) (n % 3)) training (x (n / (g * 3)) (n / 3 % g) (n % 3))

/-- Component `idx` of candidate row `n` of a decoded tensor. -/
def rowAt (rows : List (List ℝ)) (n idx : ℕ) : ℝ := (rows.getD n []).getD idx 0

/-- Embedding of the decode-and-concatenate tail of `YOLOv4.call`: the three `Decode`
heads are constructed with cell widths 8, 16 and 32 and their flattened outputs are
concatenated along the candidate axis. -/
noncomputable def yoloCall (g1 g2 g3 numClasses : ℕ) (a1 a2 a3 : ℕ → ℝ × ℝ)
    (s1 s2 s3 : ℝ) (training : Bool) (x1 x2 x3 : ℕ → ℕ → ℕ → ℕ → ℝ) : List (List ℝ) :=
  decodeCall g1 numClasses a1 8 s1 training x1 ++
  decodeCall g2 numClasses a2 16 s2 training x2 ++
  decodeCall g3 numClasses a3 32 s3 training x3

/-- Embedding of the reshape performed per scale by `_predict` in the TFLite wrapper: a
yolo output tensor of shape `(1, g, g, 3 * (5 + numClasses))`, viewed as a flat buffer,
is regrouped into rows of stride `5 + numClasses`; the row count is the number of
elements divided by the stride. -/
def predictReshape (g numClasses : ℕ) (yolo : ℕ → ℝ) : List (List ℝ) :=
  (List.range (g * g * (3 * (5 + numClasses)) / (5 + numClasses))).map fun n =>
    (List.range (5 + numClasses)).map fun c => yolo (n * (5 + numClasses) + c)

/-- Embedding of the candidate aggregation of `_predict`: per-scale reshaped candidate
lists concatenated along the candidate axis. -/
def predictAgg (g1 g2 g3 numClasses : ℕ) (y1 y2 y3 : ℕ → ℝ) : List (List ℝ) :=
  predictReshape g1 numClasses y1 ++ predictReshape g2 numClasses y2 ++
  predictReshape g3 numClasses y3

/-- The stacked meshgrid over two `range g` vectors pairs the column index first and the
row index second. -/
theorem stackLast_meshgrid_eq (g : ℕ) :
    stackLast (meshgrid (List.range g) (List.range g)) =
      (List.range g).map fun y => (List.range g).map fun x => (x, y) := by
  unfold stackLast meshgrid
  rw [List.zipWith_map, List.zipWith_same]
  refine List.map_congr_left fun y _ => ?_
  rw [List.zipWith_map_right, List.zipWith_same]

/-- Entry `(i, j, k)` of the `xy_grid` tensor is the pair (column, row). -/
theorem gridAt_eq {g i j k : ℕ} (hi : i < g) (hj : j < g) (hk : k < 3) :
    gridAt g i j k = (j, i) := by
  have hrep : (List.replicate 3 ((j, i) : ℕ × ℕ)).getD k (0, 0) = (j, i) := by
    rw [List.getD_eq_getElem?_getD, List.getElem?_replicate]
    simp [hk]
  have h1 : (xy_grid g).getD i [] =
      ((List.range g).map fun x => (x, i)).map fun p => List.replicate 3 p := by
    unfold xy_grid tileAnchors
    rw [stackLast_meshgrid_eq]
    rw [List.getD_eq_getElem?_getD, List.getElem?_map, List.getElem?_map,
      List.getElem?_range hi, Option.map_some', Option.map_some', Option.getD_some]
  have h2 : ((((List.range g).map fun x => ((x : ℕ), i)).map
        fun p => List.replicate 3 p).getD j []) = List.replicate 3 (j, i) := by
    rw [List.getD_eq_getElem?_getD, List.getElem?_map, List.getElem?_map,
      List.getElem?_range hj, Option.map_some', Option.map_some', Option.getD_some]
  unfold gridAt
  rw [h1, h2, hrep]

/-- Row-major flattening sends the cell at row `i`, column `j`, anchor `k` to flat index
`i * (g * 3) + j * 3 + k`, and `decodeCall` places the decoded row of that cell there. -/
theorem decodeCall_getD (g numClasses : ℕ) (anchors : ℕ → ℝ × ℝ) (cellWidth xyscale : ℝ)
    (training : Bool) (x : ℕ → ℕ → ℕ → ℕ → ℝ) {i j k : ℕ}
    (hi : i < g) (hj : j < g) (hk : k < 3) :
    (decodeCall g numClasses anchors cellWidth xyscale training x).getD
        (i * (g * 3) + j * 3 + k) [] =
      decodeRow numClasses (anchors k) cellWidth xyscale (j, i) training (x i j k) := by
  have hjk : j * 3 + k < g * 3 := by omega
  have hn : i * (g * 3) + j * 3 + k < g * g * 3 := by
    calc i * (g * 3) + j * 3 + k = i * (g * 3) + (j * 3 + k) := by ring
    _ < i * (g * 3) + g * 3 := by omega
    _ = (i + 1) * (g * 3) := by ring
    _ ≤ g * (g * 3) := Nat.mul_le_mul_right _ hi
    _ = g * g * 3 := by ring
  have hmod3 : (i * (g * 3) + j * 3 + k) % 3 = k := by
    have e : i * (g * 3) + j * 3 + k = 3 * (i * g + j) + k := by ring
    rw [e, Nat.mul_add_mod, Nat.mod_eq_of_lt hk]
  have hdiv3 : (i * (g * 3) + j * 3 + k) / 3 % g = j := by
    have e : i * (g * 3) + j * 3 + k = 3 * (i * g + j) + k := by ring
    rw [e, Nat.mul_add_div (by omega), Nat.div_eq_of_lt hk, Nat.add_zero]
    have e2 : i * g + j = g * i + j := by ring
    rw [e2, Nat.mul_add_mod, Nat.mod_eq_of_lt hj]
  have hdivg : (i * (g * 3) + j * 3 + k) / (g * 3) = i := by
    have e : i * (g * 3) + j * 3 + k = (g * 3) * i + (j * 3 + k) := by ring
    rw [e, Nat.mul_add_div (by omega), Nat.div_eq_of_lt hjk, Nat.add_zero]
  unfold decodeCall
  rw [List.getD_eq_getElem?_getD, List.getElem?_map, List.getElem?_range hn,
    Option.map_some', Option.getD_some]
  simp only [hmod3, hdiv3, hdivg, gridAt_eq hi hj hk]

/-- Sigmoid takes the value one half at zero. -/
theorem sigmoid_zero : sigmoid 0 = 1 / 2 := by
  unfold sigmoid
  rw [neg_zero, Real.exp_zero]
  norm_num

/-- Class component `5 + c` of a decoded row: the class logit with sigmoid applied only at
inference time. -/
theorem decodeRow_getD_class (numClasses : ℕ) (anchor : ℝ × ℝ) (cellWidth xyscale : ℝ)
    (grid : ℕ × ℕ) (training : Bool) (v : ℕ → ℝ) {c : ℕ} (hc : c < numClasses) :
    (decodeRow numClasses anchor cellWidth xyscale grid training v).getD (5 + c) 0 =
      if training then v (5 + c) else sigmoid (v (5 + c)) := by
  unfold decodeRow
  rw [List.getD_eq_getElem?_getD, List.getElem?_append_right (by simp)]
  simp [List.getElem?_map, List.getElem?_range, hc]

/-- A decoded row always has length `5 + numClasses`. -/
theorem decodeRow_length (numClasses : ℕ) (anchor : ℝ × ℝ) (cellWidth xyscale : ℝ)
    (grid : ℕ × ℕ) (training : Bool) (v : ℕ → ℝ) :
    (decodeRow numClasses anchor cellWidth xyscale grid training v).length =
      5 + numClasses := by
  simp [decodeRow]
  omega

/-- C1: for every raw input tensor, row `i`, column `j` and anchor `k`, the decoded x
coordinate produced by `Decode.call` equals
`((sigmoid dx - 0.5) * xyscale + 0.5 + j) * cell_width` and the decoded y coordinate
equals `((sigmoid dy - 0.5) * xyscale + 0.5 + i) * cell_width`, where `dx`, `dy` are the
first two components of the raw cell prediction at `(i, j, k)`. -/
theorem decode_xy_formula (g numClasses : ℕ) (anchors : ℕ → ℝ × ℝ)
    (cellWidth xyscale : ℝ) (training : Bool) (x : ℕ → ℕ → ℕ → ℕ → ℝ)
    (i j k : ℕ) (hi : i < g) (hj : j < g) (hk : k < 3) :
    rowAt (decodeCall g numClasses anchors cellWidth xyscale training x)
        (i * (g * 3) + j * 3 + k) 0 =
      ((sigmoid (x i j k 0) - 1 / 2) * xyscale + 1 / 2 + (j : ℝ)) * cellWidth ∧
    rowAt (decodeCall g numClasses anchors cellWidth xyscale training x)
        (i * (g * 3) + j * 3 + k) 1 =
      ((sigmoid (x i j k 1) - 1 / 2) * xyscale + 1 / 2 + (i : ℝ)) * cellWidth := by
  unfold rowAt
  rw [decodeCall_getD g numClasses anchors cellWidth xyscale training x hi hj hk]
  constructor <;> simp [decodeRow]

theorem decode_xy_formula_witness :
    ((0 : ℕ) < 2 ∧ (0 : ℕ) < 2 ∧ (0 : ℕ) < 3) ∧
    (rowAt (decodeCall 2 1 (fun _ => (1, 1)) 8 1 false fun _ _ _ _ => 0) 0 0 =
        ((sigmoid 0 - 1 / 2) * 1 + 1 / 2 + 0) * 8 ∧
      rowAt (decodeCall 2 1 (fun _ => (1, 1)) 8 1 false fun _ _ _ _ => 0) 0 1 =
        ((sigmoid 0 - 1 / 2) * 1 + 1 / 2 + 0) * 8) := by
  refine ⟨⟨by decide, by decide, by decide⟩, ?_⟩
  have h := decode_xy_formula 2 1 (fun _ => (1, 1)) 8 1 false (fun _ _ _ _ => 0) 0 0 0
    (by decide) (by decide) (by decide)
  simpa using h

/-- C3: for every raw input tensor, cell `(i, j)` and anchor `k`, the decoded width equals
`anchor_w * exp(dw)` and the decoded height equals `anchor_h * exp(dh)`, where the anchor
is the `k`-th anchor of the scale and `dw`, `dh` are the raw third and fourth components,
with no sigmoid applied to them. -/
theorem decode_wh_formula (g numClasses : ℕ) (anchors : ℕ → ℝ × ℝ)
    (cellWidth xyscale : ℝ) (training : Bool) (x : ℕ → ℕ → ℕ → ℕ → ℝ)
    (i j k : ℕ) (hi : i < g) (hj : j < g) (hk : k < 3) :
    rowAt (decodeCall g numClasses anchors cellWidth xyscale training x)
        (i * (g * 3) + j * 3 + k) 2 =
      (anchors k).1 * Real.exp (x i j k 2) ∧
    rowAt (decodeCall g numClasses anchors cellWidth xyscale training x)
        (i * (g * 3) + j * 3 + k) 3 =
      (anchors k).2 * Real.exp (x i j k 3) := by
  unfold rowAt
  rw [decodeCall_getD g numClasses anchors cellWidth xyscale training x hi hj hk]
  constructor <;> simp [decodeRow]

theorem decode_wh_formula_witness :
    ((0 : ℕ) < 2 ∧ (0 : ℕ) < 2 ∧ (0 : ℕ) < 3) ∧
    (rowAt (decodeCall 2 1 (fun _ => (1, 1)) 8 1 false fun _ _ _ _ => 0) 0 2 =
        1 * Real.exp 0 ∧
      rowAt (decodeCall 2 1 (fun _ => (1, 1)) 8 1 false fun _ _ _ _ => 0) 0 3 =
        1 * Real.exp 0) := by
  refine ⟨⟨by decide, by decide, by decide⟩, ?_⟩
  have h := decode_wh_formula 2 1 (fun _ => (1, 1)) 8 1 false (fun _ _ _ _ => 0) 0 0 0
    (by decide) (by decide) (by decide)
  simpa using h

/-- C4: the grid offset added to the decoded x coordinate at cell (row `i`, column `j`) is
the column index `j`, and the offset added to the y coordinate is the row index `i`: the
meshgrid construction pairs (column, row) in that order, and `Decode.call` adds the first
component of the pair to the x channel and the second to the y channel. -/
theorem decode_grid_pairing (g numClasses : ℕ) (anchors : ℕ → ℝ × ℝ)
    (cellWidth xyscale : ℝ) (training : Bool) (x : ℕ → ℕ → ℕ → ℕ → ℝ)
    (i j k : ℕ) (hi : i < g) (hj : j < g) (hk : k < 3) :
    gridAt g i j k = (j, i) ∧
    rowAt (decodeCall g numClasses anchors cellWidth xyscale training x)
        (i * (g * 3) + j * 3 + k) 0 =
      ((sigmoid (x i j k 0) - 1 / 2) * xyscale + 1 / 2 + ((gridAt g i j k).1 : ℝ)) *
        cellWidth ∧
    rowAt (decodeCall g numClasses anchors cellWidth xyscale training x)
        (i * (g * 3) + j * 3 + k) 1 =
      ((sigmoid (x i j k 1) - 1 / 2) * xyscale + 1 / 2 + ((gridAt g i j k).2 : ℝ)) *
        cellWidth := by
  refine ⟨gridAt_eq hi hj hk, ?_, ?_⟩ <;>
    · unfold rowAt
      rw [decodeCall_getD g numClasses anchors cellWidth xyscale training x hi hj hk,
        gridAt_eq hi hj hk]
      simp [decodeRow]

theorem decode_grid_pairing_witness :
    ((0 : ℕ) < 2 ∧ (1 : ℕ) < 2 ∧ (0 : ℕ) < 3) ∧
    (gridAt 2 0 1 0 = (1, 0) ∧
      rowAt (decodeCall 2 1 (fun _ => (1, 1)) 8 1 false fun _ _ _ _ => 0) 3 0 =
        ((sigmoid 0 - 1 / 2) * 1 + 1 / 2 + ((gridAt 2 0 1 0).1 : ℝ)) * 8 ∧
      rowAt (decodeCall 2 1 (fun _ => (1, 1)) 8 1 false fun _ _ _ _ => 0) 3 1 =
        ((sigmoid 0 - 1 / 2) * 1 + 1 / 2 + ((gridAt 2 0 1 0).2 : ℝ)) * 8) := by
  refine ⟨⟨by decide, by decide, by decide⟩, ?_⟩
  have h := decode_grid_pairing 2 1 (fun _ => (1, 1)) 8 1 false (fun _ _ _ _ => 0) 0 1 0
    (by decide) (by decide) (by decide)
  simpa using h

/-- C5: `Decode.call` applies sigmoid to the objectness score and to each class logit
exactly when the training flag is false; when training is true those components pass
through unchanged, while the x, y, w, h components are transformed identically in both
modes. -/
theorem decode_training_flag (g numClasses : ℕ) (anchors : ℕ → ℝ × ℝ)
    (cellWidth xyscale : ℝ) (x : ℕ → ℕ → ℕ → ℕ → ℝ) (i j k c : ℕ)
    (hi : i < g) (hj : j < g) (hk : k < 3) (hc : c < numClasses) :
    rowAt (decodeCall g numClasses anchors cellWidth xyscale false x)
        (i * (g * 3) + j * 3 + k) 4 = sigmoid (x i j k 4) ∧
    rowAt (decodeCall g numClasses anchors cellWidth xyscale true x)
        (i * (g * 3) + j * 3 + k) 4 = x i j k 4 ∧
    rowAt (decodeCall g numClasses anchors cellWidth xyscale false x)
        (i * (g * 3) + j * 3 + k) (5 + c) = sigmoid (x i j k (5 + c)) ∧
    rowAt (decodeCall g numClasses anchors cellWidth xyscale true x)
        (i * (g * 3) + j * 3 + k) (5 + c) = x i j k (5 + c) ∧
    rowAt (decodeCall g numClasses anchors cellWidth xyscale true x)
        (i * (g * 3) + j * 3 + k) 0 =
      rowAt (decodeCall g numClasses anchors cellWidth xyscale false x)
        (i * (g * 3) + j * 3 + k) 0 ∧
    rowAt (decodeCall g numClasses anchors cellWidth xyscale true x)
        (i * (g * 3) + j * 3 + k) 1 =
      rowAt (decodeCall g numClasses anchors cellWidth xyscale false x)
        (i * (g * 3) + j * 3 + k) 1 ∧
    rowAt (decodeCall g numClasses anchors cellWidth xyscale true x)
        (i * (g * 3) + j * 3 + k) 2 =
      rowAt (decodeCall g numClasses anchors cellWidth xyscale false x)
        (i * (g * 3) + j * 3 + k) 2 ∧
    rowAt (decodeCall g numClasses anchors cellWidth xyscale true x)
        (i * (g * 3) + j * 3 + k) 3 =
      rowAt (decodeCall g numClasses anchors cellWidth xyscale false x)
        (i * (g * 3) + j * 3 + k) 3 := by
  have hf := decodeCall_getD g numClasses anchors cellWidth xyscale false x hi hj hk
  have ht := decodeCall_getD g numClasses anchors cellWidth xyscale true x hi hj hk
  unfold rowAt
  rw [hf, ht]
  refine ⟨by simp [decodeRow], by simp [decodeRow], ?_, ?_,
    by simp [decodeRow], by simp [decodeRow], by simp [decodeRow], by simp [decodeRow]⟩
  · rw [decodeRow_getD_class numClasses (anchors k) cellWidth xyscale (j, i) false
      (x i j k) hc]
    simp
  · rw [decodeRow_getD_class numClasses (anchors k) cellWidth xyscale (j, i) true
      (x i j k) hc]
    simp

theorem decode_training_flag_witness :
    ((0 : ℕ) < 2 ∧ (0 : ℕ) < 2 ∧ (0 : ℕ) < 3 ∧ (0 : ℕ) < 1) ∧
    (rowAt (decodeCall 2 1 (fun _ => (1, 1)) 8 1 false fun _ _ _ _ => 0) 0 4 =
        sigmoid 0 ∧
      rowAt (decodeCall 2 1 (fun _ => (1, 1)) 8 1 true fun _ _ _ _ => 0) 0 4 = 0 ∧
      rowAt (decodeCall 2 1 (fun _ => (1, 1)) 8 1 false fun _ _ _ _ => 0) 0 5 =
        sigmoid 0 ∧
      rowAt (decodeCall 2 1 (fun _ => (1, 1)) 8 1 true fun _ _ _ _ => 0) 0 5 = 0 ∧
      rowAt (decodeCall 2 1 (fun _ => (1, 1)) 8 1 true fun _ _ _ _ => 0) 0 0 =
        rowAt (decodeCall 2 1 (fun _ => (1, 1)) 8 1 false fun _ _ _ _ => 0) 0 0 ∧
      rowAt (decodeCall 2 1 (fun _ => (1, 1)) 8 1 true fun _ _ _ _ => 0) 0 1 =
        rowAt (decodeCall 2 1 (fun _ => (1, 1)) 8 1 false fun _ _ _ _ => 0) 0 1 ∧
      rowAt (decodeCall 2 1 (fun _ => (1, 1)) 8 1 true fun _ _ _ _ => 0) 0 2 =
        rowAt (decodeCall 2 1 (fun _ => (1, 1)) 8 1 false fun _ _ _ _ => 0) 0 2 ∧
      rowAt (decodeCall 2 1 (fun _ => (1, 1)) 8 1 true fun _ _ _ _ => 0) 0 3 =
        rowAt (decodeCall 2 1 (fun _ => (1, 1)) 8 1 false fun _ _ _ _ => 0) 0 3) := by
  refine ⟨⟨by decide, by decide, by decide, by decide⟩, ?_⟩
  have h := decode_training_flag 2 1 (fun _ => (1, 1)) 8 1 (fun _ _ _ _ => 0) 0 0 0 0
    (by decide) (by decide) (by decide) (by decide)
  simpa using h

/-- C6: each scale with grid size `g` contributes exactly `g * g * 3` candidate rows of
length `5 + numClasses`, and the concatenated output of `YOLOv4.call` as well as the
TFLite `_predict` aggregation contain the sum of `g * g * 3` over the three scales. -/
theorem decode_candidate_counts (g1 g2 g3 numClasses : ℕ) (a1 a2 a3 : ℕ → ℝ × ℝ)
    (s1 s2 s3 : ℝ) (training : Bool) (x1 x2 x3 : ℕ → ℕ → ℕ → ℕ → ℝ)
    (y1 y2 y3 : ℕ → ℝ) :
    (decodeCall g1 numClasses a1 8 s1 training x1).length = g1 * g1 * 3 ∧
    (∀ n : ℕ, ((decodeCall g1 numClasses a1 8 s1 training x1).getD n []).length =
      if n < g1 * g1 * 3 then 5 + numClasses else 0) ∧
    (yoloCall g1 g2 g3 numClasses a1 a2 a3 s1 s2 s3 training x1 x2 x3).length =
      g1 * g1 * 3 + g2 * g2 * 3 + g3 * g3 * 3 ∧
    (predictAgg g1 g2 g3 numClasses y1 y2 y3).length =
      g1 * g1 * 3 + g2 * g2 * 3 + g3 * g3 * 3 := by
  have hdiv : ∀ g : ℕ, g * g * (3 * (5 + numClasses)) / (5 + numClasses) = g * g * 3 :=
    fun g => by
      rw [show g * g * (3 * (5 + numClasses)) = g * g * 3 * (5 + numClasses) by ring,
        Nat.mul_div_cancel _ (by omega)]
  refine ⟨by simp [decodeCall], ?_, by simp [yoloCall, decodeCall]; omega, ?_⟩
  · intro n
    by_cases hn : n < g1 * g1 * 3
    · rw [if_pos hn]
      unfold decodeCall
      rw [List.getD_eq_getElem?_getD, List.getElem?_map, List.getElem?_range hn,
        Option.map_some', Option.getD_some, decodeRow_length]
    · rw [if_neg hn]
      unfold decodeCall
      rw [List.getD_eq_getElem?_getD, List.getElem?_map,
        List.getElem?_eq_none (by simpa using Nat.le_of_not_lt hn), Option.map_none',
        Option.getD_none]
      rfl
  · simp [predictAgg, predictReshape, hdiv]
    omega

/-- Anchor table of the reference example: every anchor is the normalized pair
`(0.1, 0.1)`. -/
noncomputable def exampleAnchors : ℕ → ℝ × ℝ := fun _ => (1 / 10, 1 / 10)

/-- All-zero raw tensor. -/
def zeroRaw : ℕ → ℕ → ℕ → ℕ → ℝ := fun _ _ _ _ => 0

/-- Raw tensor of the end-to-end example of the specification: all components zero except
a positive objectness logit of 5. -/
def exampleRaw : ℕ → ℕ → ℕ → ℕ → ℝ := fun _ _ _ c => if c = 4 then 5 else 0

/-- C2 counterexample: on the cell_width 32 scale with normalized anchor 0.1 and an
all-zero raw input, the decoded x is 16 (pixels, with the cell_width factor) while the
decoded width is the bare image fraction 0.1 and differs from the image fraction
multiplied by the cell width: the four coordinates are not in one common unit. -/
theorem decode_units_cex :
    rowAt (decodeCall 8 1 exampleAnchors 32 1 false zeroRaw) 0 0 = 16 ∧
    rowAt (decodeCall 8 1 exampleAnchors 32 1 false zeroRaw) 0 2 = 1 / 10 ∧
    ¬ rowAt (decodeCall 8 1 exampleAnchors 32 1 false zeroRaw) 0 2 =
        1 / 10 * Real.exp 0 * 32 := by
  have h0 : (decodeCall 8 1 exampleAnchors 32 1 false zeroRaw).getD 0 [] =
      decodeRow 1 (exampleAnchors 0) 32 1 (0, 0) false (zeroRaw 0 0 0) := by
    simpa using decodeCall_getD 8 1 exampleAnchors 32 1 false zeroRaw
      (show (0 : ℕ) < 8 by norm_num) (show (0 : ℕ) < 8 by norm_num)
      (show (0 : ℕ) < 3 by norm_num)
  unfold rowAt
  rw [h0]
  refine ⟨?_, ?_, ?_⟩
  · simp [decodeRow, exampleAnchors, zeroRaw, sigmoid_zero]
    norm_num
  · simp [decodeRow, exampleAnchors, zeroRaw, Real.exp_zero]
  · simp [decodeRow, exampleAnchors, zeroRaw, Real.exp_zero]

/-- C2 amended: the decoded x and y coordinates are multiplied by cell_width (pixels in
network-input space), while the decoded w and h equal anchor times exp of the raw values
with no cell_width factor, so they stay in the units of the anchors (image fractions when
the anchors are normalized). -/
theorem decode_units_amended (g numClasses : ℕ) (anchors : ℕ → ℝ × ℝ)
    (cellWidth xyscale : ℝ) (training : Bool) (x : ℕ → ℕ → ℕ → ℕ → ℝ)
    (i j k : ℕ) (hi : i < g) (hj : j < g) (hk : k < 3) :
    rowAt (decodeCall g numClasses anchors cellWidth xyscale training x)
        (i * (g * 3) + j * 3 + k) 0 =
      ((sigmoid (x i j k 0) - 1 / 2) * xyscale + 1 / 2 + (j : ℝ)) * cellWidth ∧
    rowAt (decodeCall g numClasses anchors cellWidth xyscale training x)
        (i * (g * 3) + j * 3 + k) 1 =
      ((sigmoid (x i j k 1) - 1 / 2) * xyscale + 1 / 2 + (i : ℝ)) * cellWidth ∧
    rowAt (decodeCall g numClasses anchors cellWidth xyscale training x)
        (i * (g * 3) + j * 3 + k) 2 =
      (anchors k).1 * Real.exp (x i j k 2) ∧
    rowAt (decodeCall g numClasses anchors cellWidth xyscale training x)
        (i * (g * 3) + j * 3 + k) 3 =
      (anchors k).2 * Real.exp (x i j k 3) := by
  unfold rowAt
  rw [decodeCall_getD g numClasses anchors cellWidth xyscale training x hi hj hk]
  refine ⟨by simp [decodeRow], by simp [decodeRow], by simp [decodeRow],
    by simp [decodeRow]⟩

theorem decode_units_amended_witness :
    ((0 : ℕ) < 2 ∧ (0 : ℕ) < 2 ∧ (0 : ℕ) < 3) ∧
    (rowAt (decodeCall 2 1 (fun _ => (1, 1)) 8 1 false fun _ _ _ _ => 0) 0 0 =
        ((sigmoid 0 - 1 / 2) * 1 + 1 / 2 + 0) * 8 ∧
      rowAt (decodeCall 2 1 (fun _ => (1, 1)) 8 1 false fun _ _ _ _ => 0) 0 1 =
        ((sigmoid 0 - 1 / 2) * 1 + 1 / 2 + 0) * 8 ∧
      rowAt (decodeCall 2 1 (fun _ => (1, 1)) 8 1 false fun _ _ _ _ => 0) 0 2 =
        1 * Real.exp 0 ∧
      rowAt (decodeCall 2 1 (fun _ => (1, 1)) 8 1 false fun _ _ _ _ => 0) 0 3 =
        1 * Real.exp 0) := by
  refine ⟨⟨by decide, by decide, by decide⟩, ?_⟩
  have h := decode_units_amended 2 1 (fun _ => (1, 1)) 8 1 false (fun _ _ _ _ => 0) 0 0 0
    (by decide) (by decide) (by decide)
  simpa using h

/-- The exponential of 5 exceeds 99. -/
theorem exp_five_gt : (99 : ℝ) < Real.exp 5 := by
  have h1 : (2.7182818283 : ℝ) < Real.exp 1 := Real.exp_one_gt_d9
  have h5 : ((2.7182818283 : ℝ)) ^ (5 : ℕ) < Real.exp 1 ^ (5 : ℕ) :=
    pow_lt_pow_left₀ h1 (by norm_num) (by norm_num)
  have he : Real.exp 1 ^ (5 : ℕ) = Real.exp 5 := by
    rw [Real.exp_one_pow]
    norm_num
  calc (99 : ℝ) < 2.7182818283 ^ (5 : ℕ) := by norm_num
  _ < Real.exp 1 ^ (5 : ℕ) := h5
  _ = Real.exp 5 := he

/-- Sigmoid of the objectness logit 5 exceeds 0.99. -/
theorem sigmoid_five_gt : (99 : ℝ) / 100 < sigmoid 5 := by
  have h99 : (99 : ℝ) < Real.exp 5 := exp_five_gt
  have hposn : (0 : ℝ) < Real.exp (-5) := Real.exp_pos _
  have hmul : Real.exp (-5) * Real.exp 5 = 1 := by
    rw [← Real.exp_add]
    norm_num
  unfold sigmoid
  rw [lt_div_iff₀ (by positivity)]
  nlinarith [mul_pos hposn (sub_pos.mpr h99)]

/-- C7 counterexample: in the end-to-end example (grid 8, cell_width 32, normalized
anchor 0.1, zero dx dy dw dh, objectness logit 5, xyscale 1) the decoded center
coordinate is 16, not approximately (0.5 * xyscale + 0.5) * 32 = 32, and the decoded
width is the image fraction 0.1, not approximately 0.1 * 256 = 25.6 pixels. -/
theorem decode_endtoend_cex :
    rowAt (decodeCall 8 1 exampleAnchors 32 1 false exampleRaw) 0 0 = 16 ∧
    ¬ |rowAt (decodeCall 8 1 exampleAnchors 32 1 false exampleRaw) 0 0 -
        (1 / 2 * 1 + 1 / 2) * 32| ≤ 10 ∧
    rowAt (decodeCall 8 1 exampleAnchors 32 1 false exampleRaw) 0 2 = 1 / 10 ∧
    ¬ |rowAt (decodeCall 8 1 exampleAnchors 32 1 false exampleRaw) 0 2 -
        1 / 10 * 256| ≤ 20 := by
  have h0 : (decodeCall 8 1 exampleAnchors 32 1 false exampleRaw).getD 0 [] =
      decodeRow 1 (exampleAnchors 0) 32 1 (0, 0) false (exampleRaw 0 0 0) := by
    simpa using decodeCall_getD 8 1 exampleAnchors 32 1 false exampleRaw
      (show (0 : ℕ) < 8 by norm_num) (show (0 : ℕ) < 8 by norm_num)
      (show (0 : ℕ) < 3 by norm_num)
  have hx : rowAt (decodeCall 8 1 exampleAnchors 32 1 false exampleRaw) 0 0 = 16 := by
    unfold rowAt
    rw [h0]
    simp [decodeRow, exampleAnchors, exampleRaw, sigmoid_zero]
    norm_num
  have hw : rowAt (decodeCall 8 1 exampleAnchors 32 1 false exampleRaw) 0 2 = 1 / 10 := by
    unfold rowAt
    rw [h0]
    simp [decodeRow, exampleAnchors, exampleRaw, Real.exp_zero]
  refine ⟨hx, ?_, hw, ?_⟩
  · rw [hx]
    norm_num
  · rw [hw]
    rw [show (1 : ℝ) / 10 - 1 / 10 * 256 = -(51 / 2) by norm_num]
    rw [abs_neg, abs_of_nonneg (by norm_num : (0 : ℝ) ≤ 51 / 2)]
    norm_num

/-- C7 amended: in the end-to-end example the decoded box center is
((sigmoid 0 - 0.5) * xyscale + 0.5) * 32 = 16 pixels in each coordinate for every
xyscale, the decoded width and height are the bare image fraction 0.1 (corresponding to
0.1 * 256 pixels only after a further multiplication by the 256-pixel input size), and
the objectness score is sigmoid of the logit 5, which exceeds 0.99. -/
theorem decode_endtoend_amended (xyscale : ℝ) :
    rowAt (decodeCall 8 1 exampleAnchors 32 xyscale false exampleRaw) 0 0 = 16 ∧
    rowAt (decodeCall 8 1 exampleAnchors 32 xyscale false exampleRaw) 0 1 = 16 ∧
    rowAt (decodeCall 8 1 exampleAnchors 32 xyscale false exampleRaw) 0 2 = 1 / 10 ∧
    rowAt (decodeCall 8 1 exampleAnchors 32 xyscale false exampleRaw) 0 3 = 1 / 10 ∧
    rowAt (decodeCall 8 1 exampleAnchors 32 xyscale false exampleRaw) 0 4 = sigmoid 5 ∧
    (99 : ℝ) / 100 < sigmoid 5 := by
  have h0 : (decodeCall 8 1 exampleAnchors 32 xyscale false exampleRaw).getD 0 [] =
      decodeRow 1 (exampleAnchors 0) 32 xyscale (0, 0) false (exampleRaw 0 0 0) := by
    simpa using decodeCall_getD 8 1 exampleAnchors 32 xyscale false exampleRaw
      (show (0 : ℕ) < 8 by norm_num) (show (0 : ℕ) < 8 by norm_num)
      (show (0 : ℕ) < 3 by norm_num)
  unfold rowAt
  rw [h0]
  refine ⟨?_, ?_, ?_, ?_, ?_, sigmoid_five_gt⟩
  · simp [decodeRow, exampleAnchors, exampleRaw, sigmoid_zero]
    norm_num
  · simp [decodeRow, exampleAnchors, exampleRaw, sigmoid_zero]
    norm_num
  · simp [decodeRow, exampleAnchors, exampleRaw, Real.exp_zero]
  · simp [decodeRow, exampleAnchors, exampleRaw, Real.exp_zero]
  · simp [decodeRow, exampleAnchors, exampleRaw]

/-- Numpy-style element dtypes relevant to the TFLite input details. -/
inductive NpDtype where
  | float32 : NpDtype
  | float16 : NpDtype
  | uint8 : NpDtype
  | int8 : NpDtype
deriving DecidableEq

/-- Outcome of the load-time input checks: either loading proceeds or a RuntimeError is
raised. -/
inductive LoadOutcome where
  | ok : LoadOutcome
  | runtimeError : LoadOutcome
deriving DecidableEq

/-- Input details reported by the TFLite interpreter: the four entries of the input
tensor shape (batch, height, width, channels) and the element dtype. -/
structure TfliteInputDetails where
  shape0 : ℕ
  shape1 : ℕ
  shape2 : ℕ
  shape3 : ℕ
  dtype : NpDtype
deriving DecidableEq

/-- Embedding of the shape check in `YOLOv4.load_tflite`: a RuntimeError is raised when
shape entry 1, 2 or 3 of the interpreter input differs from the configured network input
shape entries 0, 1, 2; otherwise loading proceeds. -/
def load_tflite_shape_check (d : TfliteInputDetails) (inputShape : ℕ × ℕ × ℕ) :
    LoadOutcome :=
  if d.shape1 ≠ inputShape.1 ∨ d.shape2 ≠ inputShape.2.1 ∨ d.shape3 ≠ inputShape.2.2 then
    LoadOutcome.runtimeError
  else LoadOutcome.ok

/-- C8: `load_tflite` raises a fatal RuntimeError exactly when the height, width or
channel dimension of the TFLite input tensor differs from the configured network input
shape, and raises nothing when all three match. -/
theorem load_tflite_shape_check_iff (d : TfliteInputDetails) (inputShape : ℕ × ℕ × ℕ) :
    (load_tflite_shape_check d inputShape = LoadOutcome.runtimeError ↔
      d.shape1 ≠ inputShape.1 ∨ d.shape2 ≠ inputShape.2.1 ∨ d.shape3 ≠ inputShape.2.2) ∧
    (load_tflite_shape_check d inputShape = LoadOutcome.ok ↔
      d.shape1 = inputShape.1 ∧ d.shape2 = inputShape.2.1 ∧ d.shape3 = inputShape.2.2) := by
  unfold load_tflite_shape_check
  by_cases h : d.shape1 ≠ inputShape.1 ∨ d.shape2 ≠ inputShape.2.1 ∨
      d.shape3 ≠ inputShape.2.2
  · rw [if_pos h]
    constructor
    · simp [h]
    · constructor
      · intro hok
        cases hok
      · intro hall
        exact absurd hall (by tauto)
  · rw [if_neg h]
    push_neg at h
    constructor
    · constructor
      · intro hok
        cases hok
      · intro hor
        exact absurd hor (by tauto)
    · simp [h.1, h.2.1, h.2.2]

/-- Embedding of the `_input_float` flag computed in `load_tflite`: true exactly when the
input dtype reported by the interpreter is float32. -/
def input_float (d : TfliteInputDetails) : Bool := decide (d.dtype = NpDtype.float32)

/-- Embedding of the preprocessing branch in `YOLOv4.predict`: when `_input_float` is
set, the resized frame is cast to float and divided by 255 before being handed to the
interpreter; otherwise the pixel values are passed unchanged. -/
def predict_preprocess (d : TfliteInputDetails) (image : ℕ → ℚ) : ℕ → ℚ :=
  if input_float d then (fun p => image p / 255) else image

/-- C10: `predict` divides the resized frame by 255 before invoking the interpreter if
and only if the loaded input dtype is float32; otherwise the pixel values reach the
interpreter unchanged. -/
theorem predict_normalization_iff (d : TfliteInputDetails) (image : ℕ → ℚ) (p : ℕ) :
    predict_preprocess d image p =
      (if d.dtype = NpDtype.float32 then image p / 255 else image p) := by
  unfold predict_preprocess input_float
  by_cases h : d.dtype = NpDtype.float32 <;> simp [h]

/-- Candidate detection box as decoded for post-processing: center coordinates, size,
objectness and per-class probabilities. -/
structure Cand where
  x : ℚ
  y : ℚ
  w : ℚ
  h : ℚ
  obj : ℚ
  cls : List ℚ
deriving DecidableEq

/-- Modelled from the spec: running argmax over the class probabilities, keeping the
first index in case of ties. -/
def argmaxFrom : List ℚ → ℕ → ℕ × ℚ → ℕ × ℚ
  | [], _, best => best
  | p :: rest, idx, best => argmaxFrom rest (idx + 1) (if best.2 < p then (idx, p) else best)

/-- Modelled from the spec: the predicted class of a candidate is the class with maximum
probability, together with that probability. -/
def bestClass (c : Cand) : ℕ × ℚ := argmaxFrom c.cls 0 (0, 0)

/-- Modelled from the spec: the combined score of a candidate is objectness times its
best class probability. -/
def candScore (c : Cand) : ℚ := c.obj * (bestClass c).2

/-- Modelled from the spec (yolo_diou_nms step 1, outside src): drop candidates whose
combined score does not exceed the acceptance threshold. -/
def scoreFilter (thr : ℚ) (l : List Cand) : List Cand :=
  l.filter fun c => decide (thr < candScore c)

/-- Modelled from the spec (yolo_diou_nms step 2, outside src): the group of surviving
candidates whose predicted class is `cid`. -/
def classGroup (cid : ℕ) (l : List Cand) : List Cand :=
  l.filter fun c => decide ((bestClass c).1 = cid)

/-- Descending-score ordering used to sort each class group. -/
def scoreGe (a b : Cand) : Prop := candScore b ≤ candScore a

instance : DecidableRel scoreGe :=
  fun a b => inferInstanceAs (Decidable (candScore b ≤ candScore a))

instance : IsTotal Cand scoreGe := ⟨fun a b => le_total (candScore b) (candScore a)⟩

instance : IsTrans Cand scoreGe := ⟨fun _ _ _ hab hbc => le_trans hbc hab⟩

/-- Modelled from the spec (yolo_diou_nms step 3, outside src): greedy suppression within
one class group — keep the highest-scoring remaining candidate, drop every remaining
candidate the pairwise suppression rule flags against it, and recurse. -/
def greedy (suppress : Cand → Cand → Bool) : List Cand → List Cand
  | [] => []
  | a :: rest => a :: greedy suppress (rest.filter fun b => ! suppress a b)
termination_by l => l.length
decreasing_by
  simp only [List.length_cons]
  exact Nat.lt_succ_of_le (List.length_filter_le _ _)

theorem greedy_nil (f : Cand → Cand → Bool) : greedy f [] = [] := by
  rw [greedy]

theorem greedy_cons (f : Cand → Cand → Bool) (a : Cand) (l : List Cand) :
    greedy f (a :: l) = a :: greedy f (l.filter fun b => ! f a b) := by
  rw [greedy]

/-- Modelled from the spec (§4.3 step 4, outside src): intersection over union of two
center-format boxes. -/
def iouQ (a b : Cand) : ℚ :=
  let interW := max 0 (min (a.x + a.w / 2) (b.x + b.w / 2) -
    max (a.x - a.w / 2) (b.x - b.w / 2))
  let interH := max 0 (min (a.y + a.h / 2) (b.y + b.h / 2) -
    max (a.y - a.h / 2) (b.y - b.h / 2))
  let inter := interW * interH
  inter / (a.w * a.h + b.w * b.h - inter)

/-- Modelled from the spec (§4.3 step 4, outside src): Distance-IoU, the IoU penalized by
the squared center distance over the squared diagonal of the smallest enclosing box. -/
def diouQ (a b : Cand) : ℚ :=
  let dSq := (a.x - b.x) ^ 2 + (a.y - b.y) ^ 2
  let cW := max (a.x + a.w / 2) (b.x + b.w / 2) - min (a.x - a.w / 2) (b.x - b.w / 2)
  let cH := max (a.y + a.h / 2) (b.y + b.h / 2) - min (a.y - a.h / 2) (b.y - b.h / 2)
  iouQ a b - dSq / (cW ^ 2 + cH ^ 2)

/-- Modelled from the spec (§4.3 step 4, outside src): a remaining candidate is dropped
when its DIoU against the kept box exceeds the threshold controlled by beta_nms. The spec
leaves the exact score-dependent decay of the threshold open (§9); the idempotence result
below holds for every deterministic pairwise rule, so the choice does not matter for
it. -/
def diouSuppress (beta : ℚ) (kept c : Cand) : Bool := decide (beta < diouQ kept c)

/-- Modelled from the spec (§4.3, outside src): one fully processed class group — the
surviving candidates of predicted class `cid`, sorted by descending score, then run
through the greedy suppression pass. -/
def nmsGroup (f : Cand → Cand → Bool) (thr : ℚ) (cid : ℕ) (cands : List Cand) :
    List Cand :=
  greedy f ((classGroup cid (scoreFilter thr cands)).insertionSort scoreGe)

/-- Modelled from the spec (§4.3, outside src): the whole suppression pipeline — filter
by combined score, group by predicted class, process each group, and emit the groups in
class-id order — parametric in the pairwise suppression rule. -/
def nmsWith (f : Cand → Cand → Bool) (thr : ℚ) (numClasses : ℕ) (cands : List Cand) :
    List Cand :=
  (List.range numClasses).flatMap fun cid => nmsGroup f thr cid cands

/-- Modelled from the spec (§4.3, outside src): the DIoU non-maximum suppression invoked
by predict, instantiating the pipeline with the DIoU suppression rule at strength
beta_nms. -/
def yolo_diou_nms (beta thr : ℚ) (numClasses : ℕ) (cands : List Cand) : List Cand :=
  nmsWith (diouSuppress beta) thr numClasses cands

/-- The greedy pass only ever keeps candidates of its input list. -/
theorem greedy_sublist (f : Cand → Cand → Bool) :
    (l : List Cand) → List.Sublist (greedy f l) l
  | [] => by
      rw [greedy_nil]
  | a :: rest => by
      rw [greedy_cons]
      exact List.Sublist.cons₂ a
        ((greedy_sublist f (rest.filter fun b => ! f a b)).trans
          (List.filter_sublist rest))
termination_by l => l.length
decreasing_by
  simp only [List.length_cons]
  exact Nat.lt_succ_of_le (List.length_filter_le _ _)

/-- The greedy pass is idempotent, for every pairwise suppression rule. -/
theorem greedy_idem (f : Cand → Cand → Bool) :
    (l : List Cand) → greedy f (greedy f l) = greedy f l
  | [] => by
      rw [greedy_nil, greedy_nil]
  | a :: rest => by
      rw [greedy_cons, greedy_cons]
      have hall : ∀ b ∈ greedy f (rest.filter fun b => ! f a b),
          (! f a b) = true := fun b hb =>
        (List.mem_filter.mp
          ((greedy_sublist f (rest.filter fun b => ! f a b)).subset hb)).2
      rw [List.filter_eq_self.mpr hall,
        greedy_idem f (rest.filter fun b => ! f a b)]
termination_by l => l.length
decreasing_by
  simp only [List.length_cons]
  exact Nat.lt_succ_of_le (List.length_filter_le _ _)

/-- Filtering distributes over flatMap. -/
theorem filter_flatMap_eq {α β : Type} (xs : List α) (f : α → List β) (p : β → Bool) :
    (xs.flatMap f).filter p = xs.flatMap fun x => (f x).filter p := by
  induction xs with
  | nil => simp
  | cons a t ih => simp [List.flatMap_cons, List.filter_append, ih]

/-- flatMap over two pointwise equal functions agrees. -/
theorem flatMap_congr_mem {α β : Type} (l : List α) (f g : α → List β)
    (h : ∀ a ∈ l, f a = g a) : l.flatMap f = l.flatMap g := by
  induction l with
  | nil => rfl
  | cons a t ih =>
      simp only [List.flatMap_cons]
      rw [h a (by simp), ih fun b hb => h b (by simp [hb])]

/-- flatMap over a range whose function vanishes except at one index collapses to the
value there. -/
theorem flatMap_range_eq_single {β : Type} (C cid : ℕ) (hcid : cid < C) (b : List β)
    (f : ℕ → List β) (hf : ∀ c, c < C → c ≠ cid → f c = []) (hb : f cid = b) :
    (List.range C).flatMap f = b := by
  induction C with
  | zero => omega
  | succ n ih =>
      rw [List.range_succ, List.flatMap_append]
      by_cases h : cid = n
      · subst h
        have h1 : (List.range cid).flatMap f = [] := by
          rw [List.flatMap_eq_nil_iff]
          intro c hc
          exact hf c (by simp at hc; omega) (by simp at hc; omega)
        simp [h1, hb]
      · have h2 : f n = [] := hf n (by omega) fun hn => h hn.symm
        rw [ih (by omega) (fun c hc hne => hf c (by omega) hne)]
        simp [h2]

/-- Every candidate emitted by a processed class group passed the score filter and has
that group's predicted class. -/
theorem nmsGroup_mem (f : Cand → Cand → Bool) (thr : ℚ) (cid : ℕ) (cands : List Cand)
    (c : Cand) (hc : c ∈ nmsGroup f thr cid cands) :
    thr < candScore c ∧ (bestClass c).1 = cid := by
  unfold nmsGroup at hc
  have h1 : c ∈ (classGroup cid (scoreFilter thr cands)).insertionSort scoreGe :=
    (greedy_sublist f _).subset hc
  have h2 : c ∈ classGroup cid (scoreFilter thr cands) :=
    (List.mem_insertionSort scoreGe).mp h1
  unfold classGroup at h2
  have h3 := List.mem_filter.mp h2
  unfold scoreFilter at h3
  have h4 := List.mem_filter.mp h3.1
  exact ⟨of_decide_eq_true h4.2, of_decide_eq_true h3.2⟩

/-- A processed class group is sorted by descending score. -/
theorem nmsGroup_sorted (f : Cand → Cand → Bool) (thr : ℚ) (cid : ℕ)
    (cands : List Cand) : (nmsGroup f thr cid cands).Sorted scoreGe := by
  unfold nmsGroup
  exact List.Pairwise.sublist (greedy_sublist f _) (List.sorted_insertionSort scoreGe _)

/-- The modelled suppression pipeline is idempotent for every pairwise suppression
rule. -/
theorem nmsWith_idem (f : Cand → Cand → Bool) (thr : ℚ) (numClasses : ℕ)
    (cands : List Cand) :
    nmsWith f thr numClasses (nmsWith f thr numClasses cands) =
      nmsWith f thr numClasses cands := by
  have houtA : scoreFilter thr (nmsWith f thr numClasses cands) =
      nmsWith f thr numClasses cands := by
    unfold scoreFilter
    apply List.filter_eq_self.mpr
    intro c hc
    unfold nmsWith at hc
    obtain ⟨cid, _, hcB⟩ := List.mem_flatMap.mp hc
    exact decide_eq_true (nmsGroup_mem f thr cid cands c hcB).1
  have houtB : ∀ cid : ℕ, cid < numClasses →
      classGroup cid (nmsWith f thr numClasses cands) = nmsGroup f thr cid cands := by
    intro cid hcid
    unfold classGroup nmsWith
    rw [filter_flatMap_eq]
    refine flatMap_range_eq_single numClasses cid hcid (nmsGroup f thr cid cands) _
      ?_ ?_
    · intro c hc hne
      refine List.filter_eq_nil_iff.mpr ?_
      intro b hb
      have := (nmsGroup_mem f thr c cands b hb).2
      simp [this, hne]
    · apply List.filter_eq_self.mpr
      intro b hb
      exact decide_eq_true (nmsGroup_mem f thr cid cands b hb).2
  show ((List.range numClasses).flatMap fun cid =>
      nmsGroup f thr cid (nmsWith f thr numClasses cands)) =
    (List.range numClasses).flatMap fun cid => nmsGroup f thr cid cands
  apply flatMap_congr_mem
  intro cid hcid
  show greedy f ((classGroup cid (scoreFilter thr
      (nmsWith f thr numClasses cands))).insertionSort scoreGe) =
    nmsGroup f thr cid cands
  rw [houtA, houtB cid (List.mem_range.mp hcid)]
  rw [List.Sorted.insertionSort_eq (nmsGroup_sorted f thr cid cands)]
  show greedy f (greedy f
      ((classGroup cid (scoreFilter thr cands)).insertionSort scoreGe)) =
    greedy f ((classGroup cid (scoreFilter thr cands)).insertionSort scoreGe)
  exact greedy_idem f _

/-- C9: the DIoU-NMS step invoked by predict is idempotent: for every candidate list,
applying yolo_diou_nms to its own output with the same beta_nms threshold (and the same
acceptance threshold and class count) returns exactly the same detections. -/
theorem yolo_diou_nms_idem (beta thr : ℚ) (numClasses : ℕ) (cands : List Cand) :
    yolo_diou_nms beta thr numClasses (yolo_diou_nms beta thr numClasses cands) =
      yolo_diou_nms beta thr numClasses cands := by
  unfold yolo_diou_nms
  exact nmsWith_idem (diouSuppress beta) thr numClasses cands
